import Mathlib

/-!
Verification development for the `pandas_formula` package.

The embedding models `src/pandas_formula/engine.py` (class `FormulaEngine`)
and `src/pandas_formula/functions/registry.py` (class `FunctionRegistry`).
Strings are modelled by `String` / `List Char`; Python dictionaries (which
preserve insertion order, update values in place and append new keys at the
end) are modelled by association lists with `dictSet`/`dictGet`.  The regex
pipeline of `extract_references` is modelled by direct character scanners
implementing the leftmost, non-overlapping, greedy matching that the Python
`re` module performs for these particular (backtracking-free) patterns.
-/

/-! ### Character classes (ASCII fragment of the Python `re` classes) -/

/-- Python `\w` (ASCII): letters, digits and underscore. -/
def isWordChar (c : Char) : Bool := c.isAlpha || c.isDigit || c == '_'

/-- Python `\d` (ASCII). -/
def isDigitChar (c : Char) : Bool := c.isDigit

/-- Python `\s` (ASCII): space, tab, newline, carriage return, form feed, vertical tab. -/
def isSpaceChar (c : Char) : Bool :=
  c == ' ' || c == '\t' || c == '\n' || c == '\r' || c == '\x0c' || c == '\x0b'

/-- First character of `_IDENTIFIER_PATTERN = [A-Za-z_][\w.\[\]]*`. -/
def isIdentStartChar (c : Char) : Bool := c.isAlpha || c == '_'

/-- Continuation character of `_IDENTIFIER_PATTERN`. -/
def isIdentContChar (c : Char) : Bool := isWordChar c || c == '.' || c == '[' || c == ']'

/-! ### Ordered dictionaries (Python `dict` semantics) -/

/-- Update the first binding of `k` in place, or append `(k, v)` at the end:
Python `d[k] = v`. -/
def dictSet {α : Type} : List (String × α) → String → α → List (String × α)
  | [], k, v => [(k, v)]
  | (k', v') :: rest, k, v =>
    if k' = k then (k, v) :: rest else (k', v') :: dictSet rest k v

/-- Look up the first binding of `k`: Python `d.get(k)`. -/
def dictGet {α : Type} : List (String × α) → String → Option α
  | [], _ => none
  | (k', v) :: rest, k => if k' = k then some v else dictGet rest k

/-! ### `_FUNC_PATTERN = re.compile(r"@(\w+)")` — `findall` -/

/-- All groups of `@(\w+)` in leftmost non-overlapping order:
the maximal word-character run immediately after each `@`. -/
def funcFindall : List Char → List String
  | [] => []
  | c :: rest =>
    if c = '@' then
      let run := rest.takeWhile isWordChar
      if run.isEmpty then funcFindall rest
      else String.mk run :: funcFindall (rest.dropWhile isWordChar)
    else funcFindall rest
termination_by l => l.length
decreasing_by
  · simp [Nat.lt_succ_of_le]
  · exact Nat.lt_succ_of_le ((List.dropWhile_sublist _).length_le)
  · simp [Nat.lt_succ_of_le]

/-! ### `_KWARG_PATTERN = re.compile(r"\b(\w+)\s*=")` — `findall`

The flag records whether the previous character was a word character
(so that `\b` holds exactly when the flag is `false` and the current
character is a word character). -/

/-- All groups of `\b(\w+)\s*=` in leftmost non-overlapping order. -/
def kwargFindall (prevW : Bool) : List Char → List String
  | [] => []
  | c :: rest =>
    if !prevW && isWordChar c then
      if ((rest.dropWhile isWordChar).dropWhile isSpaceChar).head? = some '=' then
        String.mk (c :: rest.takeWhile isWordChar) ::
          kwargFindall false ((rest.dropWhile isWordChar).dropWhile isSpaceChar).tail
      else kwargFindall true rest
    else kwargFindall (isWordChar c) rest
termination_by l => l.length
decreasing_by
  · have h1 : (rest.dropWhile isWordChar).length ≤ rest.length :=
      (List.dropWhile_sublist _).length_le
    have hh : ((rest.dropWhile isWordChar).dropWhile isSpaceChar).length ≤
        (rest.dropWhile isWordChar).length :=
      (List.dropWhile_sublist _).length_le
    have ht : (((rest.dropWhile isWordChar).dropWhile isSpaceChar).tail).length =
        ((rest.dropWhile isWordChar).dropWhile isSpaceChar).length - 1 :=
      List.length_tail _
    have hc : (c :: rest).length = rest.length + 1 := by simp
    omega
  · simp [Nat.lt_succ_of_le]
  · simp [Nat.lt_succ_of_le]

/-! ### `_STRING_LITERAL = re.compile(r"('[^']*'|\"[^\"]*\")")` — `sub("")` -/

/-- Delete every single- or double-quoted literal (opening quote, maximal run
of non-quote characters, closing quote); an unterminated quote is left as is. -/
def stripStrings : List Char → List Char
  | [] => []
  | c :: rest =>
    if c = '\'' || c = '"' then
      if (rest.dropWhile (fun x => x != c)).isEmpty then c :: stripStrings rest
      else stripStrings (rest.dropWhile (fun x => x != c)).tail
    else c :: stripStrings rest
termination_by l => l.length
decreasing_by
  · simp [Nat.lt_succ_of_le]
  · have hh : (rest.dropWhile (fun x => x != c)).length ≤ rest.length :=
      (List.dropWhile_sublist _).length_le
    have ht : ((rest.dropWhile (fun x => x != c)).tail).length =
        (rest.dropWhile (fun x => x != c)).length - 1 :=
      List.length_tail _
    have hc : (c :: rest).length = rest.length + 1 := by simp
    omega
  · simp [Nat.lt_succ_of_le]

/-! ### `_SCI_NOTATION = re.compile(r"\d+\.?\d*e[+-]?\d+", re.IGNORECASE)` — `sub("")` -/

/-- Match the tail `[+-]?\d+` of the scientific-notation pattern; returns the
remainder after the match. -/
def sciTailMatch : List Char → Option (List Char)
  | [] => none
  | c :: t =>
    if c = '+' || c = '-' then
      if (t.takeWhile isDigitChar).isEmpty then none
      else some (t.dropWhile isDigitChar)
    else
      if ((c :: t).takeWhile isDigitChar).isEmpty then none
      else some ((c :: t).dropWhile isDigitChar)

/-- Consume the optional `\.? \d*` part after the leading digit run. -/
def sciAfterMantissa : List Char → List Char
  | '.' :: t => t.dropWhile isDigitChar
  | l => l

/-- Try to match `\d+\.?\d*e[+-]?\d+` (case-insensitive `e`) at the head of
the list; returns the remainder after the match.  The pattern is
backtracking-free because digits, `.`, `e` and signs are pairwise disjoint
character classes, so greedy maximal munch is exact. -/
def sciMatchAt : List Char → Option (List Char)
  | [] => none
  | c :: rest =>
    if isDigitChar c then
      match sciAfterMantissa (rest.dropWhile isDigitChar) with
      | e :: t => if e = 'e' || e = 'E' then sciTailMatch t else none
      | [] => none
    else none

theorem sciTailMatch_length {l rem : List Char} (h : sciTailMatch l = some rem) :
    rem.length ≤ l.length := by
  unfold sciTailMatch at h
  split at h
  next => exact absurd h (by simp)
  next c t =>
    split at h
    · split at h
      · exact absurd h (by simp)
      · have h1 : rem = t.dropWhile isDigitChar := by
          simpa using h.symm
        have h2 : (t.dropWhile isDigitChar).length ≤ t.length :=
          (List.dropWhile_sublist _).length_le
        simp [h1]
        omega
    · split at h
      · exact absurd h (by simp)
      · have h1 : rem = (c :: t).dropWhile isDigitChar := by
          simpa using h.symm
        have h2 : ((c :: t).dropWhile isDigitChar).length ≤ (c :: t).length :=
          (List.dropWhile_sublist _).length_le
        rw [h1]
        exact h2

theorem sciAfterMantissa_length (l : List Char) :
    (sciAfterMantissa l).length ≤ l.length := by
  unfold sciAfterMantissa
  split
  next t =>
    have h1 : (t.dropWhile isDigitChar).length ≤ t.length :=
      (List.dropWhile_sublist _).length_le
    simp
    omega
  next => exact Nat.le_refl _

theorem sciMatchAt_length {l rem : List Char} (h : sciMatchAt l = some rem) :
    rem.length < l.length := by
  unfold sciMatchAt at h
  split at h
  next => exact absurd h (by simp)
  next c rest =>
    split at h
    · split at h
      next e t heq =>
        split at h
        · have ht := sciTailMatch_length h
          have hr1 : (rest.dropWhile isDigitChar).length ≤ rest.length :=
            (List.dropWhile_sublist _).length_le
          have hr2 : (e :: t).length ≤ (rest.dropWhile isDigitChar).length := by
            rw [← heq]
            exact sciAfterMantissa_length _
          simp at hr2
          simp
          omega
        · exact absurd h (by simp)
      next => exact absurd h (by simp)
    · exact absurd h (by simp)

/-- Delete every non-overlapping leftmost match of `_SCI_NOTATION`. -/
def stripSci : List Char → List Char
  | [] => []
  | c :: rest =>
    if h2 : (sciMatchAt (c :: rest)).isSome then
      stripSci ((sciMatchAt (c :: rest)).get h2)
    else c :: stripSci rest
termination_by l => l.length
decreasing_by
  · exact sciMatchAt_length (Option.some_get h2).symm
  · simp

/-! ### `_IDENTIFIER_PATTERN = re.compile(r"[A-Za-z_][\w.\[\]]*")` — `findall` -/

/-- All identifier-like tokens in leftmost non-overlapping order. -/
def identFindall : List Char → List String
  | [] => []
  | c :: rest =>
    if isIdentStartChar c then
      String.mk (c :: rest.takeWhile isIdentContChar) ::
        identFindall (rest.dropWhile isIdentContChar)
    else identFindall rest
termination_by l => l.length
decreasing_by
  · exact Nat.lt_succ_of_le ((List.dropWhile_sublist _).length_le)
  · simp

/-! ### `_NUMERIC_PATTERN = re.compile(r"^-?\d+\.?\d*$")` — `match` -/

/-- Full match of `\d+\.?\d*$` after the optional sign: a nonempty digit
run, an optional decimal point, and digits up to the end. -/
def numericTail (s1 : List Char) : Bool :=
  if (s1.takeWhile isDigitChar).isEmpty then false
  else
    (if (s1.dropWhile isDigitChar).head? = some '.' then
       (s1.dropWhile isDigitChar).tail
     else s1.dropWhile isDigitChar).all isDigitChar

/-- Full match of `-?\d+\.?\d*` (the `^`/`$` anchors make `match` a full
match on the tokens at hand, which never contain newlines). -/
def numericMatch (s : List Char) : Bool :=
  numericTail (if s.head? = some '-' then s.tail else s)

/-! ### `FormulaEngine.extract_references` -/

/-- Core of `FormulaEngine.extract_references` on the character list of the
formula: function names (after `@`) and keyword-argument names are collected
from the original string; string literals and scientific-notation literals
are deleted; the remaining identifiers minus function names, keyword names
and plain numeric literals form the result.  The Python function returns a
`set`; we return the deduplicated list of first occurrences, so the result
is to be read as a finite set of strings. -/
def extractRefs (formula : List Char) : List String :=
  let funcNames := funcFindall formula
  let kwargNames := kwargFindall false formula
  let cleaned := stripSci (stripStrings formula)
  let allIds := identFindall cleaned
  (allIds.filter (fun n =>
    decide (n ∉ funcNames) && decide (n ∉ kwargNames) && !numericMatch n.data)).dedup

/-! ### `FunctionRegistry` (`functions/registry.py`)

Registered callables are stored as attributes on the registry object; we
model the attribute table of registered functions as an ordered dictionary
`attrs` and the `_function_docs` attribute as the dictionary `docs`.  The
callable type is a parameter `F`. -/

structure FunctionRegistry (F : Type) where
  attrs : List (String × F)
  docs : List (String × String)

/-- `register`: `setattr(self, name, func)`; the doc table is updated only
when a nonempty doc is supplied (`if doc:`). -/
def FunctionRegistry.register {F : Type} (r : FunctionRegistry F)
    (name : String) (func : F) (doc : String := "") : FunctionRegistry F :=
  { r with
    attrs := dictSet r.attrs name func
    docs := if doc ≠ "" then dictSet r.docs name doc else r.docs }

/-- `has`: `hasattr(self, name) and name != "_function_docs"`. -/
def FunctionRegistry.has {F : Type} (r : FunctionRegistry F) (name : String) : Bool :=
  (dictGet r.attrs name).isSome && name ≠ "_function_docs"

/-- `get`: raises `KeyError` (modelled as `none`) when `has` fails. -/
def FunctionRegistry.get {F : Type} (r : FunctionRegistry F) (name : String) : Option F :=
  if r.has name then dictGet r.attrs name else none

/-- `get_doc`: `self._function_docs.get(name, "")`. -/
def FunctionRegistry.get_doc {F : Type} (r : FunctionRegistry F) (name : String) : String :=
  (dictGet r.docs name).getD ""

/-- `unregister`: `delattr` if present, and drop the doc entry. -/
def FunctionRegistry.unregister {F : Type} (r : FunctionRegistry F)
    (name : String) : FunctionRegistry F :=
  { r with
    attrs := r.attrs.filter (fun p => p.1 ≠ name)
    docs := r.docs.filter (fun p => p.1 ≠ name) }

/-! ### `FormulaEngine` state (`engine.py`) -/

/-- Cell values of the modelled integer fragment of the dataset. -/
abbrev Val := Int

/-- A dataset: named columns in insertion order (`pd.DataFrame` restricted
to what the formula engine observes: an ordered mapping from column names to
equal-length value sequences). -/
abbrev DataFrame := List (String × List Val)

/-- An ordered formula batch: target column name to formula text. -/
abbrev Formulas := List (String × String)

/-- Engine state: `self._registry`, `self._constants`, `self._formulas`. -/
structure FormulaEngine (F : Type) where
  registry : FunctionRegistry F
  constants : List (String × Val)
  formulas : Formulas

/-- `register` (engine method): delegates to the registry. -/
def FormulaEngine.register {F : Type} (e : FormulaEngine F)
    (name : String) (func : F) (doc : String := "") : FormulaEngine F :=
  { e with registry := e.registry.register name func doc }

/-- `add_constant`: store the value in the constants side-table and register
a zero-argument callable returning it; `wrap` builds that callable
(`lambda: value`). -/
def FormulaEngine.add_constant {F : Type} (wrap : Val → F) (e : FormulaEngine F)
    (name : String) (value : Val) : FormulaEngine F :=
  { e with
    constants := dictSet e.constants name value
    registry := e.registry.register name (wrap value) }

/-- `add_formula`. -/
def FormulaEngine.add_formula {F : Type} (e : FormulaEngine F)
    (column formula : String) : FormulaEngine F :=
  { e with formulas := dictSet e.formulas column formula }

/-- `extract_references` (engine method): the body reads no engine state. -/
def FormulaEngine.extract_references {F : Type} (_e : FormulaEngine F)
    (formula : String) : List String :=
  extractRefs formula.data

/-! ### Configuration import/export (`from_dict` / `to_dict`) -/

/-- An entry of the `columns` mapping of a configuration: either a bare
formula string or a record with a `formula` field (absent modelled as `""`)
and an `enabled` flag. -/
inductive ColConfig where
  | str (formula : String)
  | record (formula : String) (enabled : Bool)
deriving DecidableEq

/-- A configuration dictionary with `constants` and `columns`
(an absent `constants` key is the empty list). -/
structure Config where
  version : String
  constants : List (String × Val)
  columns : List (String × ColConfig)
deriving DecidableEq

/-- `__version__` of the package (`src/pandas_formula/__init__.py`). -/
def packageVersion : String := "0.1.0"

/-- `FormulaEngine.from_dict`: build an engine (`cls(**kwargs)` modelled by
the initial registry `r0`), load constants in order, then load formulas in
order, skipping disabled records and empty formula texts. -/
def FormulaEngine.from_dict {F : Type} (wrap : Val → F) (r0 : FunctionRegistry F)
    (config : Config) : FormulaEngine F :=
  let e0 : FormulaEngine F := ⟨r0, [], []⟩
  let e1 := config.constants.foldl
    (fun e p => FormulaEngine.add_constant wrap e p.1 p.2) e0
  config.columns.foldl
    (fun e p =>
      match p.2 with
      | .str f => if f ≠ "" then e.add_formula p.1 f else e
      | .record f enabled =>
          if enabled then (if f ≠ "" then e.add_formula p.1 f else e) else e)
    e1

/-- `FormulaEngine.to_dict`: export version, constants and the formula map
(formulas are exported as bare strings). -/
def FormulaEngine.to_dict {F : Type} (e : FormulaEngine F) : Config :=
  ⟨packageVersion, e.constants, e.formulas.map (fun p => (p.1, ColConfig.str p.2))⟩

/-! ### `apply` and `validate`

`_eval_formula` delegates the evaluation of the formula text to the external
columnar-compute engine (`df.eval` of pandas) with the registry's callables
bound.  `apply`/`validate` are parametric in that external evaluator
`ev : DataFrame → String → Except String (List Val)`, which returns the
column of values to assign or an error message; a concrete instance
(`pandasEval`, modelled from the spec) is given below. -/

/-- Type of the external formula evaluator (`df.eval` with the registry's
namespace bound). -/
abbrev EvalFn := DataFrame → String → Except String (List Val)

/-- `_eval_formula`: evaluate `formula` on `df` and write the result column
under `column` (the assignment `df.eval(f"{column} = {formula}",
inplace=True)`); failure leaves `df` unchanged and raises. -/
def evalFormulaStep (ev : EvalFn) (df : DataFrame) (column formula : String) :
    Except String DataFrame :=
  match ev df formula with
  | .ok col => .ok (dictSet df column col)
  | .error m => .error m

/-- The message of the `ValueError` raised by `apply` — the spec's
`EvaluationError`, embedding column name, formula text and cause. -/
def applyError (column formula err : String) : String :=
  "Failed to evaluate formula for '" ++ column ++ "': " ++ formula ++
    "\nError: " ++ err

/-- `_resolve_formulas`: `formulas or self._formulas` (Python truthiness:
`None` and the empty dict both fall back to the stored formulas). -/
def resolveFormulas (stored : Formulas) (fs : Option Formulas) : Formulas :=
  match fs with
  | some l => if l.isEmpty then stored else l
  | none => stored

/-- The loop of `apply`: evaluate each formula in order against the working
dataset, fail-fast on the first error.  The second component is the state of
the working dataset object when the call returns or raises (the Python heap
state observable through an alias of the working object). -/
def applyRun (ev : EvalFn) : DataFrame → Formulas → Except String DataFrame × DataFrame
  | df, [] => (.ok df, df)
  | df, (c, f) :: rest =>
    match evalFormulaStep ev df c f with
    | .ok df' => applyRun ev df' rest
    | .error m => (.error (applyError c f m), df)

/-- `FormulaEngine.apply`.  The first component is the returned dataset or
the raised error; the second component is the caller's dataset after the
call: the original when `inplace` is false (the loop ran on `df.copy()`),
the working object's final state when `inplace` is true. -/
def apply (ev : EvalFn) (stored : Formulas) (df : DataFrame)
    (fs : Option Formulas) (inplace : Bool) : Except String DataFrame × DataFrame :=
  let formulas := resolveFormulas stored fs
  if formulas.isEmpty then (.ok df, df)
  else
    let r := applyRun ev df formulas
    (r.1, if inplace then r.2 else df)

/-- `df.head(1)`: the one-row sample used by `validate` (copied, so the
caller's dataset is never touched). -/
def head1 (df : DataFrame) : DataFrame := df.map (fun p => (p.1, p.2.take 1))

/-- The loop of `validate`: every formula is attempted in order against the
sample; a failure contributes the message `"<column>: <cause>"` and leaves
the sample unchanged, a success updates the sample. -/
def validateRun (ev : EvalFn) : DataFrame → Formulas → List String
  | _, [] => []
  | sample, (c, f) :: rest =>
    match evalFormulaStep ev sample c f with
    | .ok s' => validateRun ev s' rest
    | .error m => (c ++ ": " ++ m) :: validateRun ev sample rest

/-- `FormulaEngine.validate`. -/
def validate (ev : EvalFn) (stored : Formulas) (df : DataFrame)
    (fs : Option Formulas) : List String :=
  validateRun ev (head1 df) (resolveFormulas stored fs)

/-! ### A concrete compute engine instance -/

/-- Values of the external columnar-compute engine: a scalar or a column. -/
inductive PValue where
  | scalar (n : Val)
  | column (vs : List Val)
deriving DecidableEq

/-- Type of the callables bound into the evaluation namespace. -/
abbrev PFunc := List PValue → Except String PValue

/-- Formula expressions: `@name(args...)` calls, bare identifiers and
integer literals. -/
inductive FExpr where
  | lit (n : Val)
  | col (name : String)
  | call (fname : String) (args : List FExpr)

/-- Skip whitespace. -/
def skipSpaces (l : List Char) : List Char := l.dropWhile isSpaceChar

/-- Digits to a natural number value. -/
def charsToVal (l : List Char) : Val :=
  (l.foldl (fun acc c => acc * 10 + (c.toNat - '0'.toNat)) 0 : Nat)

mutual

/-- Modelled from the spec: the formula-text grammar of §6 (`@name(arg, ...)`
nested arbitrarily, bare identifiers, numeric literals), restricted to the
integer fragment exercised here.  The parser itself is not repository code:
the repository delegates parsing to the external compute engine (pandas
`df.eval`), which is out of scope for the spec; this concrete instance only
instantiates the parametric `apply`/`validate` theorems. -/
def parseExpr : Nat → List Char → Except String (FExpr × List Char)
  | 0, _ => .error "parse: out of fuel"
  | fuel + 1, l =>
    match skipSpaces l with
    | '@' :: rest =>
      let name := rest.takeWhile isWordChar
      if name.isEmpty then .error "parse: expected name after @"
      else
        match skipSpaces (rest.dropWhile isWordChar) with
        | '(' :: rest2 =>
          match parseArgs fuel rest2 with
          | .ok (args, rest3) => .ok (.call (String.mk name) args, rest3)
          | .error m => .error m
        | _ => .error "parse: expected ("
    | c :: rest =>
      if isDigitChar c then
        .ok (.lit (charsToVal (c :: rest.takeWhile isDigitChar)),
             rest.dropWhile isDigitChar)
      else if isIdentStartChar c then
        .ok (.col (String.mk (c :: rest.takeWhile isWordChar)),
             rest.dropWhile isWordChar)
      else .error "parse: unexpected character"
    | [] => .error "parse: unexpected end of input"

/-- Modelled from the spec: argument list of a call, up to the closing
parenthesis. -/
def parseArgs : Nat → List Char → Except String (List FExpr × List Char)
  | 0, _ => .error "parse: out of fuel"
  | fuel + 1, l =>
    match skipSpaces l with
    | ')' :: rest => .ok ([], rest)
    | l' =>
      match parseExpr fuel l' with
      | .error m => .error m
      | .ok (e, r) =>
        match skipSpaces r with
        | ',' :: r2 =>
          match parseArgs fuel r2 with
          | .ok (es, r3) => .ok (e :: es, r3)
          | .error m => .error m
        | ')' :: r2 => .ok ([e], r2)
        | _ => .error "parse: expected , or )"

end

/-- Modelled from the spec: elementwise application with scalar broadcasting
(§4.6: "All builtins operate elementwise over equal-length column sequences
... and broadcast scalar arguments against column-length sequences"). -/
def broadcast2 (op : Val → Val → Val) : PValue → PValue → PValue
  | .scalar a, .scalar b => .scalar (op a b)
  | .column xs, .scalar b => .column (xs.map (fun x => op x b))
  | .scalar a, .column ys => .column (ys.map (fun y => op a y))
  | .column xs, .column ys => .column (List.zipWith op xs ys)

/-- Lift a binary operation to a two-argument callable. -/
def lift2 (op : Val → Val → Val) : PFunc := fun args =>
  match args with
  | [a, b] => .ok (broadcast2 op a b)
  | _ => .error "wrong number of arguments"

/-- The default callables used by the concrete instance: the bodies of
`add`, `sub`, `mul` from `functions/arithmetic.py` (`a + b`, `a - b`,
`a * b`), lifted elementwise by the compute engine's broadcasting rule. -/
def defaultFuncs (name : String) : Option PFunc :=
  if name = "add" then some (lift2 (· + ·))
  else if name = "sub" then some (lift2 (· - ·))
  else if name = "mul" then some (lift2 (· * ·))
  else none

mutual

/-- Modelled from the spec: evaluation of a parsed expression against the
dataset, resolving `@name` calls through the callable namespace. -/
def evalFExpr (df : DataFrame) : FExpr → Except String PValue
  | .lit n => .ok (.scalar n)
  | .col name =>
    match dictGet df name with
    | some vs => .ok (.column vs)
    | none => .error ("name '" ++ name ++ "' is not defined")
  | .call fname args =>
    match evalFArgs df args with
    | .error m => .error m
    | .ok vals =>
      match defaultFuncs fname with
      | some f => f vals
      | none => .error ("function '" ++ fname ++ "' is not defined")

/-- Modelled from the spec: evaluation of an argument list, left to right. -/
def evalFArgs (df : DataFrame) : List FExpr → Except String (List PValue)
  | [] => .ok []
  | e :: es =>
    match evalFExpr df e with
    | .error m => .error m
    | .ok v =>
      match evalFArgs df es with
      | .error m => .error m
      | .ok vs => .ok (v :: vs)

end

/-- Number of rows of the dataset (length of its first column). -/
def rowCount : DataFrame → Nat
  | [] => 0
  | (_, vs) :: _ => vs.length

/-- Modelled from the spec: a concrete instance of the external compute
engine (`df.eval` with the default registry bound), §4.6/§6 — parse the
formula text, evaluate it against the dataset, and broadcast a scalar
result to the dataset's row count. -/
def pandasEval : EvalFn := fun df formula =>
  match parseExpr (formula.data.length + 1) formula.data with
  | .error m => .error m
  | .ok (e, rest) =>
    if (skipSpaces rest).isEmpty then
      match evalFExpr df e with
      | .ok (.scalar n) => .ok (List.replicate (rowCount df) n)
      | .ok (.column vs) => .ok vs
      | .error m => .error m
    else .error "parse: trailing input"

/-! ### Lemmas about the `apply` loop -/

theorem applyRun_ok_snd {ev : EvalFn} {df d : DataFrame} {l : Formulas}
    (h : (applyRun ev df l).1 = .ok d) : (applyRun ev df l).2 = d := by
  induction l generalizing df with
  | nil => simpa [applyRun] using h
  | cons p rest ih =>
    rw [applyRun] at h ⊢
    cases hstep : evalFormulaStep ev df p.1 p.2 with
    | ok df' =>
      rw [hstep] at h
      simp only [hstep]
      exact ih h
    | error m =>
      rw [hstep] at h
      simp at h

theorem applyRun_append {ev : EvalFn} {df w : DataFrame} {pre : Formulas}
    (rest : Formulas) (h : (applyRun ev df pre).1 = .ok w) :
    applyRun ev df (pre ++ rest) = applyRun ev w rest := by
  induction pre generalizing df with
  | nil =>
    simp [applyRun] at h
    simp [h]
  | cons p pre' ih =>
    rw [List.cons_append, applyRun]
    rw [applyRun] at h
    cases hstep : evalFormulaStep ev df p.1 p.2 with
    | ok df' =>
      rw [hstep] at h
      simp only [hstep]
      exact ih h
    | error m =>
      rw [hstep] at h
      simp at h

/-! ### Claim C1 -/

/-- C1: `apply` evaluates formulas sequentially in the mapping's order,
writing each result column into the working dataset before the next formula
is evaluated (the second formula of a two-formula batch is evaluated against
the dataset updated with the first result); concretely, applying
`{step1: "@mul(a,2)", step2: "@add(step1,b)"}` to `a=[1,2,3], b=[4,5,6]`
yields `step2 = [6,9,12]`. -/
theorem apply_sequential_chaining :
    (∀ (ev : EvalFn) (stored : Formulas) (df : DataFrame) (c1 f1 c2 f2 : String)
        (v1 : List Val) (ip : Bool),
        ev df f1 = .ok v1 →
        (apply ev stored df (some [(c1, f1), (c2, f2)]) ip).1 =
          (applyRun ev (dictSet df c1 v1) [(c2, f2)]).1)
    ∧ (apply pandasEval [] [("a", [1, 2, 3]), ("b", [4, 5, 6])]
        (some [("step1", "@mul(a,2)"), ("step2", "@add(step1,b)")]) false).1 =
      .ok [("a", [1, 2, 3]), ("b", [4, 5, 6]), ("step1", [2, 4, 6]),
           ("step2", [6, 9, 12])] := by
  constructor
  · intro ev stored df c1 f1 c2 f2 v1 ip h
    simp [apply, resolveFormulas, applyRun, evalFormulaStep, h]
  · rfl

/-- C1 witness: the chaining statement applied at the concrete example. -/
theorem apply_sequential_chaining_witness :
    (apply pandasEval [] [("a", [1, 2, 3]), ("b", [4, 5, 6])]
        (some [("step1", "@mul(a,2)"), ("step2", "@add(step1,b)")]) false).1 =
      (applyRun pandasEval
        (dictSet [("a", [1, 2, 3]), ("b", [4, 5, 6])] "step1" [2, 4, 6])
        [("step2", "@add(step1,b)")]).1 :=
  apply_sequential_chaining.1 pandasEval [] [("a", [1, 2, 3]), ("b", [4, 5, 6])]
    "step1" "@mul(a,2)" "step2" "@add(step1,b)" [2, 4, 6] false rfl

/-! ### Claim C2 -/

/-- C2: if the formulas before `(c, f)` all succeed (reaching working
dataset `w`) and evaluating `f` on `w` fails with cause `m`, then `apply`
raises the evaluation error embedding the column name, the formula text and
the cause — independently of any formulas after `(c, f)` (fail-fast) — the
columns already written by the earlier iterations remain in the working
dataset (visible to the caller exactly when `inplace` is set), and nothing
of the failing column is written. -/
theorem apply_failFast_evaluationError :
    ∀ (ev : EvalFn) (stored : Formulas) (df w : DataFrame) (pre post : Formulas)
      (c f m : String) (ip : Bool),
      (applyRun ev df pre).1 = .ok w →
      ev w f = .error m →
      apply ev stored df (some (pre ++ (c, f) :: post)) ip =
        (.error (applyError c f m), if ip then w else df)
      ∧ c.data <:+: (applyError c f m).data
      ∧ f.data <:+: (applyError c f m).data
      ∧ m.data <:+: (applyError c f m).data := by
  intro ev stored df w pre post c f m ip hpre hfail
  refine ⟨?_, ?_, ?_, ?_⟩
  · have hrun : applyRun ev df (pre ++ (c, f) :: post) =
        applyRun ev w ((c, f) :: post) := applyRun_append _ hpre
    have hsnd : (applyRun ev df pre).2 = w := applyRun_ok_snd hpre
    simp [apply, resolveFormulas, hrun, applyRun, evalFormulaStep, hfail]
  · exact ⟨"Failed to evaluate formula for '".data,
      ("': " ++ f ++ "\nError: " ++ m).data, by simp [applyError]⟩
  · exact ⟨("Failed to evaluate formula for '" ++ c ++ "': ").data,
      ("\nError: " ++ m).data, by simp [applyError]⟩
  · exact ⟨("Failed to evaluate formula for '" ++ c ++ "': " ++ f ++ "\nError: ").data,
      [], by simp [applyError]⟩

/-- C2 witness: the fail-fast statement at a concrete failing batch (the
second of three formulas references the unknown column `zz`). -/
theorem apply_failFast_evaluationError_witness :
    apply pandasEval [] [("a", [1, 2, 3]), ("b", [4, 5, 6])]
        (some ([("step1", "@mul(a,2)")] ++
          ("step2", "@add(zz,b)") :: [("q", "@mul(a,3)")])) true =
      (.error (applyError "step2" "@add(zz,b)" "name 'zz' is not defined"),
       [("a", [1, 2, 3]), ("b", [4, 5, 6]), ("step1", [2, 4, 6])]) := by
  have h := (apply_failFast_evaluationError pandasEval []
    [("a", [1, 2, 3]), ("b", [4, 5, 6])]
    [("a", [1, 2, 3]), ("b", [4, 5, 6]), ("step1", [2, 4, 6])]
    [("step1", "@mul(a,2)")] [("q", "@mul(a,3)")]
    "step2" "@add(zz,b)" "name 'zz' is not defined" true rfl rfl).1
  simpa using h

/-! ### Claim C5 -/

/-- C5: `apply` in the default copy mode leaves the caller's dataset
unchanged, while `apply` with `inplace` makes the produced columns visible
through the caller's reference (the caller's view equals the returned
result on success). -/
theorem apply_copy_vs_inplace :
    ∀ (ev : EvalFn) (stored : Formulas) (df : DataFrame) (fs : Option Formulas),
      (apply ev stored df fs false).2 = df
      ∧ ∀ d : DataFrame, (apply ev stored df fs true).1 = .ok d →
          (apply ev stored df fs true).2 = d := by
  intro ev stored df fs
  by_cases he : (resolveFormulas stored fs).isEmpty
  · constructor
    · simp [apply, he]
    · intro d h
      simp [apply, he] at h ⊢
      exact h
  · constructor
    · simp [apply, he]
    · intro d h
      simp [apply, he] at h ⊢
      exact applyRun_ok_snd h

/-- C5 witness: the in-place statement at a concrete batch. -/
theorem apply_copy_vs_inplace_witness :
    (apply pandasEval [] [("a", [1, 2, 3]), ("b", [4, 5, 6])]
        (some [("step1", "@mul(a,2)"), ("step2", "@add(step1,b)")]) true).2 =
      [("a", [1, 2, 3]), ("b", [4, 5, 6]), ("step1", [2, 4, 6]),
       ("step2", [6, 9, 12])] :=
  (apply_copy_vs_inplace pandasEval [] [("a", [1, 2, 3]), ("b", [4, 5, 6])]
    (some [("step1", "@mul(a,2)"), ("step2", "@add(step1,b)")])).2 _ rfl

/-! ### Claim C10 -/

/-- C10: passing an explicitly empty formula map to `apply` or `validate` is
indistinguishable from omitting the argument — both fall back to the stored
formulas (the empty dict is falsy in `formulas or self._formulas`) — and in
particular `apply` with an empty map and a nonempty store is not a no-op. -/
theorem empty_formulas_falls_back :
    (∀ (ev : EvalFn) (stored : Formulas) (df : DataFrame) (ip : Bool),
        apply ev stored df (some []) ip = apply ev stored df none ip)
    ∧ (∀ (ev : EvalFn) (stored : Formulas) (df : DataFrame),
        validate ev stored df (some []) = validate ev stored df none)
    ∧ (apply pandasEval [("t", "@mul(a,2)")] [("a", [1, 2, 3])]
        (some []) false).1 = .ok [("a", [1, 2, 3]), ("t", [2, 4, 6])] := by
  refine ⟨?_, ?_, rfl⟩ <;> intros <;> rfl

/-! ### Lemmas about the `validate` loop -/

theorem validateRun_nil_iff {ev : EvalFn} {s : DataFrame} {l : Formulas} :
    validateRun ev s l = [] ↔ ∃ d, (applyRun ev s l).1 = .ok d := by
  induction l generalizing s with
  | nil => simp [validateRun, applyRun]
  | cons p rest ih =>
    rw [validateRun, applyRun]
    cases hstep : evalFormulaStep ev s p.1 p.2 with
    | ok s' => simpa using ih
    | error m => simp

theorem validateRun_mem {ev : EvalFn} {s : DataFrame} {l : Formulas} {msg : String}
    (h : msg ∈ validateRun ev s l) :
    ∃ c f m, (c, f) ∈ l ∧ msg = c ++ ": " ++ m := by
  induction l generalizing s with
  | nil => simp [validateRun] at h
  | cons p rest ih =>
    rw [validateRun] at h
    cases hstep : evalFormulaStep ev s p.1 p.2 with
    | ok s' =>
      rw [hstep] at h
      obtain ⟨c, f, m, hm, he⟩ := ih h
      exact ⟨c, f, m, List.mem_cons_of_mem _ hm, he⟩
    | error m =>
      rw [hstep] at h
      rcases List.mem_cons.mp h with he | hm
      · exact ⟨p.1, p.2, m, by simp, he⟩
      · obtain ⟨c, f, m', hm', he'⟩ := ih hm
        exact ⟨c, f, m', List.mem_cons_of_mem _ hm', he'⟩

/-! ### Claim C6 -/

/-- C6: `validate` runs the batch in order against the one-row sample
`head1 df` without fail-fast: (i) it returns the empty list exactly when
every formula of the (resolved) batch succeeds against the sample, i.e.
exactly when `apply` on the sample would succeed; (ii) every message comes
from a column of the batch and has the form `"<column>: <cause>"`;
(iii) a failing column contributes its one message and does not prevent
attempting the remaining formulas (which run against the unchanged sample). -/
theorem validate_collects_all_errors :
    ∀ (ev : EvalFn) (stored : Formulas) (df : DataFrame) (fs : Option Formulas),
      (validate ev stored df fs = [] ↔
        ∃ d, (apply ev stored (head1 df) fs false).1 = .ok d)
      ∧ (∀ msg ∈ validate ev stored df fs,
          ∃ c f m, (c, f) ∈ resolveFormulas stored fs ∧ msg = c ++ ": " ++ m)
      ∧ (∀ (sample : DataFrame) (c f m : String) (rest : Formulas),
          ev sample f = .error m →
          validateRun ev sample ((c, f) :: rest) =
            (c ++ ": " ++ m) :: validateRun ev sample rest) := by
  intro ev stored df fs
  refine ⟨?_, ?_, ?_⟩
  · by_cases he : (resolveFormulas stored fs).isEmpty
    · have hl : resolveFormulas stored fs = [] := by
        simpa [List.isEmpty_iff] using he
      simp [validate, apply, he, hl, validateRun]
    · rw [validate, validateRun_nil_iff]
      simp [apply, he]
  · intro msg hm
    exact validateRun_mem hm
  · intro sample c f m rest hfail
    simp [validateRun, evalFormulaStep, hfail]

/-- C6 witness: the no-fail-fast statement applied at a concrete failing
formula (unknown column `zz`), followed by a formula that is still
attempted. -/
theorem validate_collects_all_errors_witness :
    validateRun pandasEval [("a", [1]), ("b", [4])]
        [("step2", "@add(zz,b)"), ("q", "@mul(a,3)")] =
      ["step2: name 'zz' is not defined"] := by
  have h := (validate_collects_all_errors pandasEval [] [("a", [1]), ("b", [4])]
    none).2.2 [("a", [1]), ("b", [4])] "step2" "@add(zz,b)"
    "name 'zz' is not defined" [("q", "@mul(a,3)")] rfl
  rw [h]
  rfl

/-! ### Lemmas about the reference extractor -/

theorem alpha_not_digit {c : Char} (h : c.isAlpha = true) : c.isDigit = false := by
  simp [Char.isAlpha, Char.isUpper, Char.isLower, Char.isDigit,
    UInt32.le_def, BitVec.le_def] at *
  rcases h with h | h <;> omega

theorem identStart_not_digit {c : Char} (h : isIdentStartChar c = true) :
    isDigitChar c = false := by
  simp only [isIdentStartChar, Bool.or_eq_true] at h
  rcases h with h | h
  · simpa [isDigitChar] using alpha_not_digit h
  · have : c = '_' := by simpa using h
    subst this
    decide

theorem takeWhile_eq_self_of_all {p : Char → Bool} :
    ∀ {l : List Char}, (∀ x ∈ l, p x = true) → l.takeWhile p = l := by
  intro l
  induction l with
  | nil => intro _; rfl
  | cons c rest ih =>
    intro h
    rw [List.takeWhile_cons_of_pos (h c (List.mem_cons_self c rest))]
    rw [ih (fun x hx => h x (List.mem_cons_of_mem _ hx))]

theorem dropWhile_eq_nil_of_all {p : Char → Bool} :
    ∀ {l : List Char}, (∀ x ∈ l, p x = true) → l.dropWhile p = [] := by
  intro l
  induction l with
  | nil => intro _; rfl
  | cons c rest ih =>
    intro h
    rw [List.dropWhile_cons_of_pos (h c (List.mem_cons_self c rest))]
    exact ih (fun x hx => h x (List.mem_cons_of_mem _ hx))

theorem funcFindall_eq_nil : ∀ (l : List Char), '@' ∉ l → funcFindall l = [] := by
  intro l
  induction l with
  | nil => intro _; rw [funcFindall]
  | cons c rest ih =>
    intro h
    simp only [List.mem_cons, not_or] at h
    rw [funcFindall, if_neg (fun he => h.1 he.symm)]
    exact ih h.2

theorem kwargFindall_eq_nil : ∀ (l : List Char), '=' ∉ l → ∀ b, kwargFindall b l = [] := by
  intro l
  induction l with
  | nil => intro _ b; rw [kwargFindall]
  | cons c rest ih =>
    intro h b
    simp only [List.mem_cons, not_or] at h
    have hhead : ¬ ((rest.dropWhile isWordChar).dropWhile isSpaceChar).head? = some '=' := by
      intro hh
      exact h.2 ((List.dropWhile_sublist _).subset
        ((List.dropWhile_sublist _).subset (List.mem_of_mem_head? hh)))
    rw [kwargFindall]
    by_cases hb : (!b && isWordChar c) = true
    · rw [if_pos hb, if_neg hhead]
      exact ih h.2 true
    · rw [if_neg hb]
      exact ih h.2 _

theorem stripStrings_eq_self :
    ∀ (l : List Char), '\'' ∉ l → '"' ∉ l → stripStrings l = l := by
  intro l
  induction l with
  | nil => intro _ _; rw [stripStrings]
  | cons c rest ih =>
    intro h1 h2
    simp only [List.mem_cons, not_or] at h1 h2
    have hc : ¬ (c = '\'' || c = '"') = true := by
      simp only [Bool.or_eq_true, decide_eq_true_eq, not_or]
      exact ⟨fun he => h1.1 he.symm, fun he => h2.1 he.symm⟩
    rw [stripStrings, if_neg hc, ih h1.2 h2.2]

theorem identFindall_single {c : Char} {cs : List Char}
    (hc : isIdentStartChar c = true) (hcs : ∀ x ∈ cs, isIdentContChar x = true) :
    identFindall (c :: cs) = [String.mk (c :: cs)] := by
  rw [identFindall, if_pos hc, takeWhile_eq_self_of_all hcs,
    dropWhile_eq_nil_of_all hcs, identFindall]

theorem numericMatch_identStart {c : Char} (cs : List Char)
    (h : isIdentStartChar c = true) : numericMatch (c :: cs) = false := by
  have hd : isDigitChar c = false := identStart_not_digit h
  have hm : ¬ c = '-' := by
    intro he
    rw [he] at h
    exact absurd h (by decide)
  rw [numericMatch]
  have hh : ¬ (c :: cs).head? = some '-' := by simpa using hm
  rw [if_neg hh, numericTail, List.takeWhile_cons_of_neg (by simp [hd])]
  simp

/-! ### Claim C3 -/

/-- C3: on `"@div(@clip(score, lower=0), 1e6)"` the extractor returns
exactly `{score}`: the function-call names `div` and `clip`, the
keyword-argument label `lower`, and the scientific-notation literal `1e6`
are all excluded, whatever the engine's registry contains. -/
theorem extract_references_nested_call_example :
    ∀ {F : Type} (e : FormulaEngine F),
      e.extract_references "@div(@clip(score, lower=0), 1e6)" = ["score"] := by
  intro F e
  show extractRefs _ = _
  simp [extractRefs, funcFindall, kwargFindall, stripStrings, stripSci, sciMatchAt,
    sciTailMatch, sciAfterMantissa, identFindall, numericMatch, numericTail,
    isWordChar, isDigitChar, isSpaceChar, isIdentStartChar, isIdentContChar]

/-! ### Claim C4 -/

/-- C4 counterexample: `"a12e5"` is a single bare identifier (leading
letter, then word characters only), contains no `@`, no quote, and is not
digits-only, yet `extract_references` returns `{"a"}` rather than
`{"a12e5"}` — the scientific-notation scrub deletes the inner `12e5`. -/
theorem extract_references_bare_identifier_cex :
    isIdentStartChar 'a' = true
    ∧ "a12e5".data.all isWordChar = true
    ∧ '@' ∉ "a12e5".data
    ∧ '\'' ∉ "a12e5".data
    ∧ '"' ∉ "a12e5".data
    ∧ "a12e5".data.all isDigitChar = false
    ∧ extractRefs "a12e5".data = ["a"]
    ∧ ¬ extractRefs "a12e5".data = ["a12e5"] := by
  have hx : extractRefs "a12e5".data = ["a"] := by
    simp [extractRefs, funcFindall, kwargFindall, stripStrings, stripSci, sciMatchAt,
      sciTailMatch, sciAfterMantissa, identFindall, numericMatch, numericTail,
      isWordChar, isDigitChar, isSpaceChar, isIdentStartChar, isIdentContChar]
  refine ⟨by decide, by decide, by decide, by decide, by decide, by decide, hx, ?_⟩
  rw [hx]
  decide

/-- C4 (amended): for every formula that is a single bare identifier
(leading letter or underscore, then letters/digits/underscores), contains
no `@`, quote, or digits-only token, **and contains no
scientific-notation-shaped substring** (the `_SCI_NOTATION` scrub leaves it
unchanged), `extract_references` returns exactly that identifier. -/
theorem extract_references_bare_identifier :
    ∀ (s : String) (c : Char) (cs : List Char),
      s.data = c :: cs →
      isIdentStartChar c = true →
      (∀ x ∈ cs, isWordChar x = true) →
      stripSci s.data = s.data →
      extractRefs s.data = [s] := by
  intro s c cs hs hc hcs hsci
  have hword : ∀ x ∈ c :: cs, x ≠ '@' ∧ x ≠ '\'' ∧ x ≠ '"' ∧ x ≠ '=' := by
    intro x hx
    rcases List.mem_cons.mp hx with he | hmem
    · subst he
      refine ⟨?_, ?_, ?_, ?_⟩ <;> intro he2 <;> rw [he2] at hc <;>
        exact absurd hc (by decide)
    · have hw := hcs x hmem
      refine ⟨?_, ?_, ?_, ?_⟩ <;> intro he2 <;> rw [he2] at hw <;>
        exact absurd hw (by decide)
  have hat : '@' ∉ c :: cs := fun hm => (hword _ hm).1 rfl
  have hq1 : '\'' ∉ c :: cs := fun hm => (hword _ hm).2.1 rfl
  have hq2 : '"' ∉ c :: cs := fun hm => (hword _ hm).2.2.1 rfl
  have heq : '=' ∉ c :: cs := fun hm => (hword _ hm).2.2.2 rfl
  have hcont : ∀ x ∈ cs, isIdentContChar x = true := by
    intro x hx
    simp [isIdentContChar, hcs x hx]
  obtain ⟨sd⟩ := s
  simp only [String.data] at hs
  subst hs
  rw [show (String.mk (c :: cs)).data = c :: cs from rfl] at hsci ⊢
  rw [extractRefs]
  rw [funcFindall_eq_nil _ hat, kwargFindall_eq_nil _ heq false,
    stripStrings_eq_self _ hq1 hq2, hsci, identFindall_single hc hcont]
  simp [numericMatch_identStart cs hc]

/-- C4 witness: the amended statement applied at the bare identifier
`"raw_column"`. -/
theorem extract_references_bare_identifier_witness :
    extractRefs "raw_column".data = ["raw_column"] := by
  have h := extract_references_bare_identifier "raw_column" 'r' "aw_column".data
    rfl (by decide) (by decide)
    (by simp [stripSci, sciMatchAt, sciTailMatch, sciAfterMantissa, isDigitChar])
  exact h

/-! ### Claim C9 -/

/-- C9: `extract_references` is independent of the registry: two engines
with arbitrary (and arbitrarily typed) registry states extract identical
reference sets from every formula, and every identifier immediately
preceded by `@` is excluded whether or not any function of that name is
registered. -/
theorem extract_references_registry_independent :
    ∀ {F G : Type} (e1 : FormulaEngine F) (e2 : FormulaEngine G) (formula : String),
      e1.extract_references formula = e2.extract_references formula
      ∧ ∀ n ∈ funcFindall formula.data, n ∉ e1.extract_references formula := by
  intro F G e1 e2 formula
  refine ⟨rfl, ?_⟩
  intro n hn hmem
  rw [FormulaEngine.extract_references, extractRefs] at hmem
  have h1 := List.mem_filter.mp (List.mem_dedup.mp hmem)
  have h2 := h1.2
  simp only [Bool.and_eq_true, decide_eq_true_eq] at h2
  exact h2.1.1 hn

/-- C9 witness: an engine with `foo` registered and one without extract the
same references from `"@foo(x)"`, and `foo` is excluded in both. -/
theorem extract_references_registry_independent_witness :
    (FormulaEngine.mk (F := Unit) ⟨[("foo", ())], []⟩ [] []).extract_references
        "@foo(x)" =
      (FormulaEngine.mk (F := Unit) ⟨[], []⟩ [] []).extract_references "@foo(x)"
    ∧ "foo" ∉ (FormulaEngine.mk (F := Unit) ⟨[("foo", ())], []⟩ [] []).extract_references
        "@foo(x)" := by
  have h := extract_references_registry_independent
    (FormulaEngine.mk (F := Unit) ⟨[("foo", ())], []⟩ [] [])
    (FormulaEngine.mk (F := Unit) ⟨[], []⟩ [] []) "@foo(x)"
  refine ⟨h.1, h.2 "foo" ?_⟩
  simp [funcFindall, isWordChar, isDigitChar]

/-! ### Lemmas about ordered dictionaries -/

theorem dictGet_dictSet_self {α : Type} :
    ∀ (m : List (String × α)) (k : String) (v : α),
      dictGet (dictSet m k v) k = some v := by
  intro m k v
  induction m with
  | nil => simp [dictSet, dictGet]
  | cons p rest ih =>
    by_cases he : p.1 = k
    · simp [dictSet, dictGet, he]
    · simp only [dictSet, dictGet]
      rw [if_neg he, dictGet, if_neg he]
      exact ih

theorem dictSet_eq_append {α : Type} :
    ∀ {m : List (String × α)} {k : String} (v : α), dictGet m k = none →
      dictSet m k v = m ++ [(k, v)] := by
  intro m k v h
  induction m with
  | nil => rfl
  | cons p rest ih =>
    rw [dictGet] at h
    by_cases he : p.1 = k
    · rw [if_pos he] at h
      exact absurd h (by simp)
    · rw [if_neg he] at h
      simp only [dictSet]
      rw [if_neg he, ih h]
      simp

theorem dictGet_append_none {α : Type} :
    ∀ {m : List (String × α)} {k' : String} (k : String) (v : α),
      dictGet m k' = none →
      dictGet (m ++ [(k, v)]) k' = if k = k' then some v else none := by
  intro m k' k v h
  induction m with
  | nil => simp [dictGet]
  | cons p rest ih =>
    rw [dictGet] at h
    by_cases he : p.1 = k'
    · rw [if_pos he] at h
      exact absurd h (by simp)
    · rw [if_neg he] at h
      rw [List.cons_append, dictGet, if_neg he]
      exact ih h

theorem foldl_dictSet_fresh {α : Type} :
    ∀ (L : List (String × α)) (m : List (String × α)),
      (∀ p ∈ L, dictGet m p.1 = none) →
      (L.map Prod.fst).Nodup →
      L.foldl (fun acc p => dictSet acc p.1 p.2) m = m ++ L := by
  intro L
  induction L with
  | nil => intro m _ _; simp
  | cons p rest ih =>
    intro m hfresh hnodup
    rw [List.foldl_cons, dictSet_eq_append p.2 (hfresh p (List.mem_cons_self p rest))]
    rw [List.map_cons, List.nodup_cons] at hnodup
    have hrest : ∀ q ∈ rest, dictGet (m ++ [(p.1, p.2)]) q.1 = none := by
      intro q hq
      rw [dictGet_append_none p.1 p.2 (hfresh q (List.mem_cons_of_mem _ hq))]
      rw [if_neg]
      intro he
      exact hnodup.1 (he ▸ List.mem_map_of_mem Prod.fst hq)
    rw [ih (m ++ [(p.1, p.2)]) hrest hnodup.2]
    simp

/-! ### Lemmas about configuration import -/

theorem from_dict_constants_fold {F : Type} (wrap : Val → F) :
    ∀ (L : List (String × Val)) (e : FormulaEngine F),
      ((L.foldl (fun e p => FormulaEngine.add_constant wrap e p.1 p.2) e).constants
        = L.foldl (fun m p => dictSet m p.1 p.2) e.constants)
      ∧ ((L.foldl (fun e p => FormulaEngine.add_constant wrap e p.1 p.2) e).formulas
        = e.formulas) := by
  intro L
  induction L with
  | nil => intro e; exact ⟨rfl, rfl⟩
  | cons p rest ih =>
    intro e
    rw [List.foldl_cons, List.foldl_cons]
    exact (ih _)

theorem from_dict_columns_fold {F : Type} :
    ∀ (L : Formulas) (e : FormulaEngine F),
      (∀ p ∈ L, p.2 ≠ "") →
      ((L.map (fun p => (p.1, ColConfig.str p.2))).foldl
        (fun e p =>
          match p.2 with
          | .str f => if f ≠ "" then e.add_formula p.1 f else e
          | .record f enabled =>
              if enabled then (if f ≠ "" then e.add_formula p.1 f else e) else e) e)
        = { e with formulas := L.foldl (fun m p => dictSet m p.1 p.2) e.formulas } := by
  intro L
  induction L with
  | nil => intro e _; rfl
  | cons p rest ih =>
    intro e hne
    rw [List.map_cons, List.foldl_cons, List.foldl_cons]
    have hp : p.2 ≠ "" := hne p (List.mem_cons_self p rest)
    simp only [hp, if_pos, ne_eq, not_false_iff, if_true]
    rw [ih _ (fun q hq => hne q (List.mem_cons_of_mem _ hq))]
    rfl

/-! ### Claim C7 -/

/-- C7 counterexample: an engine storing the empty formula text for a
column does not round-trip — `from_dict` skips empty formulas
(`if formula:`), so the re-imported engine has no formulas at all. -/
theorem config_roundtrip_cex :
    (FormulaEngine.from_dict (fun _ => ()) ⟨[], []⟩
        (FormulaEngine.mk (F := Unit) ⟨[], []⟩ [] [("c", "")]).to_dict).formulas = []
    ∧ (FormulaEngine.from_dict (fun _ => ()) ⟨[], []⟩
        (FormulaEngine.mk (F := Unit) ⟨[], []⟩ [] [("c", "")]).to_dict).formulas ≠
      (FormulaEngine.mk (F := Unit) ⟨[], []⟩ [] [("c", "")]).formulas := by
  have h0 : (FormulaEngine.from_dict (fun _ => ()) ⟨[], []⟩
      (FormulaEngine.mk (F := Unit) ⟨[], []⟩ [] [("c", "")]).to_dict).formulas =
      ([] : Formulas) := rfl
  refine ⟨h0, ?_⟩
  rw [h0]
  simp

/-- C7 (amended): export followed by import round-trips the engine state —
the same constants mapping (stored values, not the wrapped callables) and
the same column-to-formula mapping in the same order — for every engine
whose stored formula texts are all nonempty (an empty formula text is
dropped by the import's `if formula:` guard; key lists are those of Python
dicts, hence duplicate-free). -/
theorem config_roundtrip :
    ∀ {F : Type} (wrap : Val → F) (r0 : FunctionRegistry F) (e : FormulaEngine F),
      (e.constants.map Prod.fst).Nodup →
      (e.formulas.map Prod.fst).Nodup →
      (∀ p ∈ e.formulas, p.2 ≠ "") →
      (FormulaEngine.from_dict wrap r0 e.to_dict).constants = e.constants
      ∧ (FormulaEngine.from_dict wrap r0 e.to_dict).formulas = e.formulas := by
  intro F wrap r0 e hc hf hne
  have h1 := from_dict_constants_fold wrap e.constants (⟨r0, [], []⟩ : FormulaEngine F)
  have hcon : (e.constants.foldl (fun e p => FormulaEngine.add_constant wrap e p.1 p.2)
      (⟨r0, [], []⟩ : FormulaEngine F)).constants = e.constants := by
    rw [h1.1]
    simpa using foldl_dictSet_fresh e.constants [] (fun p _ => rfl) hc
  have hfor : (e.constants.foldl (fun e p => FormulaEngine.add_constant wrap e p.1 p.2)
      (⟨r0, [], []⟩ : FormulaEngine F)).formulas = [] := h1.2
  have hdef : FormulaEngine.from_dict wrap r0 e.to_dict =
      (e.formulas.map (fun p => (p.1, ColConfig.str p.2))).foldl
        (fun e p =>
          match p.2 with
          | .str f => if f ≠ "" then e.add_formula p.1 f else e
          | .record f enabled =>
              if enabled then (if f ≠ "" then e.add_formula p.1 f else e) else e)
        (e.constants.foldl (fun e p => FormulaEngine.add_constant wrap e p.1 p.2)
          (⟨r0, [], []⟩ : FormulaEngine F)) := rfl
  rw [hdef, from_dict_columns_fold e.formulas _ hne]
  refine ⟨hcon, ?_⟩
  show e.formulas.foldl (fun m p => dictSet m p.1 p.2) _ = e.formulas
  rw [hfor]
  simpa using foldl_dictSet_fresh e.formulas [] (fun p _ => rfl) hf

/-- C7 witness: the round-trip statement at a concrete engine holding one
constant and two chained formulas. -/
theorem config_roundtrip_witness :
    (FormulaEngine.from_dict (fun _ => ()) ⟨[], []⟩
        (FormulaEngine.mk (F := Unit) ⟨[], []⟩ [("tax", 7)]
          [("step1", "@mul(a,2)"), ("step2", "@add(step1,b)")]).to_dict).constants =
      [("tax", 7)]
    ∧ (FormulaEngine.from_dict (fun _ => ()) ⟨[], []⟩
        (FormulaEngine.mk (F := Unit) ⟨[], []⟩ [("tax", 7)]
          [("step1", "@mul(a,2)"), ("step2", "@add(step1,b)")]).to_dict).formulas =
      [("step1", "@mul(a,2)"), ("step2", "@add(step1,b)")] := by
  have h := config_roundtrip (fun _ => ()) (⟨[], []⟩ : FunctionRegistry Unit)
    (FormulaEngine.mk ⟨[], []⟩ [("tax", 7)]
      [("step1", "@mul(a,2)"), ("step2", "@add(step1,b)")])
    (by simp) (by simp) (by simp)
  exact h

/-! ### Claim C8 -/

/-- C8 counterexample: after `register("n", f, "d")` followed by
`register("n", g)` with no doc, `get("n")` does return the new callable but
`get_doc("n")` returns the old doc `"d"`, not the empty string — `register`
only touches the doc table when a nonempty doc is supplied. -/
theorem register_overwrite_cex :
    (((FunctionRegistry.mk (F := Nat) [] []).register "n" 0 "d").register "n" 1).get "n" =
      some 1
    ∧ (((FunctionRegistry.mk (F := Nat) [] []).register "n" 0 "d").register "n" 1).get_doc
        "n" = "d"
    ∧ "d" ≠ "" := by
  exact ⟨rfl, rfl, by decide⟩

/-- C8 (amended): re-registering an already-used name (other than the
internal bookkeeping attribute) overwrites the callable — `get` returns the
new function — but the stored doc persists: `get_doc` returns the doc
supplied at the first registration when it was nonempty, and the prior doc
state otherwise. -/
theorem register_overwrite :
    ∀ {F : Type} (r : FunctionRegistry F) (name : String) (f g : F) (doc1 : String),
      name ≠ "_function_docs" →
      ((r.register name f doc1).register name g).get name = some g
      ∧ ((r.register name f doc1).register name g).get_doc name =
          (if doc1 = "" then r.get_doc name else doc1) := by
  intro F r name f g doc1 hn
  constructor
  · rw [FunctionRegistry.get, if_pos]
    · exact dictGet_dictSet_self _ name g
    · rw [FunctionRegistry.has]
      simp [FunctionRegistry.register, dictGet_dictSet_self, hn]
  · rw [FunctionRegistry.get_doc]
    by_cases hd : doc1 = ""
    · simp [FunctionRegistry.register, hd, FunctionRegistry.get_doc]
    · simp [FunctionRegistry.register, hd, dictGet_dictSet_self]

/-- C8 witness: the amended statement at a concrete registry. -/
theorem register_overwrite_witness :
    (((FunctionRegistry.mk (F := Nat) [] []).register "n" 0 "d").register "n" 1).get "n" =
      some 1
    ∧ (((FunctionRegistry.mk (F := Nat) [] []).register "n" 0 "d").register "n" 1).get_doc
        "n" = "d" := by
  have h := register_overwrite (FunctionRegistry.mk (F := Nat) [] []) "n" 0 1 "d"
    (by decide)
  refine ⟨h.1, ?_⟩
  rw [h.2]
  rfl
